import Mathlib

/-!
Shallow embedding of the Structural Index core of the treesitter-mcp server
(`src/manager.ts`, `src/middleware.ts`).  The external tree-sitter engine
(grammar loading, parsing, query matching) is modelled abstractly as function
parameters, mirroring the collaborator contracts; the manager's own logic is
translated function by function.
-/

namespace TreeSitterMCP

/-- A (row, column) position, as in web-tree-sitter's `Point`. -/
structure Point where
  row : Nat
  column : Nat
deriving DecidableEq, Repr

/-- A concrete-syntax-tree node as exposed by web-tree-sitter: a kind string
(`type`), named/unnamed status, the field name under which it sits in its
parent (for `childForFieldName` lookups), its verbatim source text, start and
end positions, and its ordered children. -/
inductive TSNode : Type where
  | node (ty : String) (named : Bool) (fieldName : Option String)
      (text : String) (startPosition : Point) (endPosition : Point)
      (children : List TSNode) : TSNode

namespace TSNode

def type : TSNode → String
  | .node ty _ _ _ _ _ _ => ty

def isNamed : TSNode → Bool
  | .node _ nm _ _ _ _ _ => nm

def fieldName : TSNode → Option String
  | .node _ _ f _ _ _ _ => f

def text : TSNode → String
  | .node _ _ _ t _ _ _ => t

def startPosition : TSNode → Point
  | .node _ _ _ _ s _ _ => s

def endPosition : TSNode → Point
  | .node _ _ _ _ _ e _ => e

def children : TSNode → List TSNode
  | .node _ _ _ _ _ _ cs => cs

end TSNode

/-- `node.childForFieldName(f)`: the first child carrying field tag `f`. -/
def childForFieldName (n : TSNode) (f : String) : Option TSNode :=
  n.children.find? (fun c => c.fieldName == some f)

/-- Association-list lookup, modelling JS `Map.get` (first matching key). -/
def lookupKey {α : Type} : List (String × α) → String → Option α
  | [], _ => none
  | (k, v) :: rest, key => if k = key then some v else lookupKey rest key

/-- Association-list update, modelling JS `Map.set`: replace in place if the
key is present, append otherwise. -/
def setKey {α : Type} : List (String × α) → String → α → List (String × α)
  | [], key, v => [(key, v)]
  | (k, w) :: rest, key, v =>
      if k = key then (key, v) :: rest else (k, w) :: setKey rest key v

-- Pre-order (document-order) traversal of a tree, the order in which
-- web-tree-sitter's `descendantsOfType` yields nodes.
mutual

def preorder : TSNode → List TSNode
  | .node ty nm f t s e cs => .node ty nm f t s e cs :: preorderList cs

def preorderList : List TSNode → List TSNode
  | [] => []
  | c :: cs => preorder c ++ preorderList cs

end

/-- Engine primitive `node.descendantsOfType(ty)`: every node of the given
kind, anywhere in the subtree, in document order. -/
def descendantsOfType (n : TSNode) (ty : String) : List TSNode :=
  (preorder n).filter (fun m => m.type == ty)

/-- A JSON value, the shape produced by the manager's serializers and fed to
`JSON.stringify`. -/
inductive Json : Type where
  | str (s : String)
  | num (n : Nat)
  | arr (elems : List Json)
  | obj (fields : List (String × Json))

-- `JSON.stringify` on the values above (object keys in insertion order).
mutual

def Json.stringify : Json → String
  | .str s => "\"" ++ s ++ "\""
  | .num n => toString n
  | .arr elems => "[" ++ stringifyElems elems ++ "]"
  | .obj fields => "\x7b" ++ stringifyFields fields ++ "\x7d"

def stringifyElems : List Json → String
  | [] => ""
  | [x] => Json.stringify x
  | x :: y :: rest => Json.stringify x ++ "," ++ stringifyElems (y :: rest)

def stringifyFields : List (String × Json) → String
  | [] => ""
  | [(k, v)] => "\"" ++ k ++ "\":" ++ Json.stringify v
  | (k, v) :: f :: rest =>
      "\"" ++ k ++ "\":" ++ Json.stringify v ++ "," ++ stringifyFields (f :: rest)

end

/-- Whether a serialized object carries a top-level key. -/
def Json.hasKey : Json → String → Bool
  | .obj fields, k => fields.any (fun f => f.1 == k)
  | _, _ => false

/-- JSON form of a `Point` (`{row, column}` object). -/
def pointJson (p : Point) : Json :=
  .obj [("row", .num p.row), ("column", .num p.column)]

-- `serializeCstNode` (`manager.ts:194-204`): lossless serialization of every
-- node — kind, text, positions and all children, unnamed and comment nodes
-- included.
mutual

def serializeCstNode : TSNode → Json
  | .node ty _ _ t s e cs =>
      .obj [("type", .str ty), ("text", .str t),
            ("startPosition", pointJson s), ("endPosition", pointJson e),
            ("children", .arr (serializeCstList cs))]

def serializeCstList : List TSNode → List Json
  | [] => []
  | c :: cs => serializeCstNode c :: serializeCstList cs

end

/-- A node of the thin AST built by `buildAstNode`. -/
inductive AstNode : Type where
  | mk (ty : String) (name : Option String)
      (startPosition : Point) (endPosition : Point)
      (children : List AstNode) : AstNode

namespace AstNode

def type : AstNode → String
  | .mk ty _ _ _ _ => ty

def name : AstNode → Option String
  | .mk _ nm _ _ _ => nm

def startPosition : AstNode → Point
  | .mk _ _ s _ _ => s

def endPosition : AstNode → Point
  | .mk _ _ _ e _ => e

def children : AstNode → List AstNode
  | .mk _ _ _ _ cs => cs

end AstNode

-- `buildAstNode` (`manager.ts:212-232`): recursive thin-AST reduction.  A
-- node whose kind is "comment", or which is unnamed, is dropped with its
-- whole subtree; a kept node records kind, the text of its "name"-field
-- child when present, its span, and its reduced children.
mutual

def buildAstNode : TSNode → Option AstNode
  | .node ty nm f t s e cs =>
      if ty = "comment" ∨ nm = false then none
      else some (.mk ty
        ((childForFieldName (.node ty nm f t s e cs) "name").map TSNode.text)
        s e (buildAstList cs))

def buildAstList : List TSNode → List AstNode
  | [] => []
  | c :: cs =>
      match buildAstNode c with
      | some a => a :: buildAstList cs
      | none => buildAstList cs

end

-- The serialized form of a thin-AST node, mirroring the object literal in
-- `buildAstNode` together with `JSON.stringify`'s treatment of it: the
-- `name` key vanishes when the value is `undefined`, and the `children` key
-- is only spread in when the reduced child list is non-empty.
mutual

def astToJson : AstNode → Json
  | .mk ty nm s e cs =>
      .obj ([("type", .str ty)]
        ++ (match nm with | some x => [("name", Json.str x)] | none => [])
        ++ [("startPosition", pointJson s), ("endPosition", pointJson e)]
        ++ (match cs with | [] => [] | c :: rest => [("children", Json.arr (astListToJson (c :: rest)))]))

def astListToJson : List AstNode → List Json
  | [] => []
  | a :: rest => astToJson a :: astListToJson rest

end

-- Recursively: no node of the thin AST has kind "comment".
mutual

def noCommentNode : AstNode → Bool
  | .mk ty _ _ _ cs => (ty != "comment") && noCommentList cs

def noCommentList : List AstNode → Bool
  | [] => true
  | a :: rest => noCommentNode a && noCommentList rest

end

/-- One capture yielded by the external query matcher. -/
structure Capture where
  name : String
  node : TSNode

/-- A compiled language grammar, modelled by the collaborator contract the
manager consumes: `parse(Grammar, text)` (total, may yield no tree only on
engine failure) and `language.query(text).captures(root)` (compilation may
fail on a malformed query). -/
structure Grammar where
  parseFn : String → Option TSNode
  compileQuery : String → Option (TSNode → List Capture)

/-- A parsed tree: its root node plus the language it was parsed with
(web-tree-sitter's `tree.language`). -/
structure Tree where
  rootNode : TSNode
  language : Grammar

/-- The explicit state of `TreeSitterManager`: the `parser` field (here: has
`initializeParser` completed), the `languages` map and the `trees` map. -/
structure ManagerState where
  parser : Bool
  languages : List (String × Grammar)
  trees : List (String × Tree)

/-- The errors thrown by the manager and middleware (`throw new Error(...)`). -/
inductive TsError : Type where
  | parserNotInitialized
  | languageNotLoaded (languageName : String)
  | grammarLoadError (languageName : String)
  | parseFailure (filePath : String)
  | fileNotParsed (filePath : String)
  | invalidQuery (queryString : String)
deriving DecidableEq, Repr

/-- Observable collaborator work: grammar-artifact loads, file-system reads
and parse-primitive invocations. -/
inductive Effect : Type where
  | grammarLoad (languageName : String)
  | fileRead (filePath : String)
  | parseCall (languageName : String)
deriving DecidableEq, Repr

/-- The external world consumed by the manager and middleware: `path.resolve`,
`fs.readFile` (`none` = the read fails) and `Language.load` (`none` = the
grammar artifact cannot be loaded). -/
structure Env where
  resolve : String → String
  readFile : String → Option String
  loadGrammar : String → Option Grammar

/-- `initializeParser` (`manager.ts:26-30`): a no-op when already
initialized. -/
def initializeParser (s : ManagerState) : ManagerState :=
  if s.parser then s else { s with parser := true }

/-- `loadLanguage` (`manager.ts:37-55`): early-return when the language is
already cached, otherwise load the grammar artifact and register it; a failed
load throws and registers nothing. -/
def loadLanguage (env : Env) (s : ManagerState) (languageName : String) :
    Except TsError Unit × ManagerState × List Effect :=
  if (lookupKey s.languages languageName).isSome then
    (.ok (), s, [])
  else
    match env.loadGrammar languageName with
    | some language =>
        (.ok (), { s with languages := setKey s.languages languageName language },
         [.grammarLoad languageName])
    | none => (.error (.grammarLoadError languageName), s, [.grammarLoad languageName])

/-- `parseFile` (`manager.ts:74-87`): throws if the parser is uninitialized,
the language is not loaded, or the parse primitive returns no tree; only on
success is the tree stored under `filePath`, replacing any prior entry. -/
def parseFile (s : ManagerState) (languageName filePath content : String) :
    Except TsError Unit × ManagerState × List Effect :=
  if s.parser = false then
    (.error .parserNotInitialized, s, [])
  else
    match lookupKey s.languages languageName with
    | none => (.error (.languageNotLoaded languageName), s, [])
    | some language =>
        match language.parseFn content with
        | none => (.error (.parseFailure filePath), s, [.parseCall languageName])
        | some root =>
            (.ok (), { s with trees := setKey s.trees filePath ⟨root, language⟩ },
             [.parseCall languageName])

/-- `getTree` (`manager.ts:94-96`). -/
def getTree (s : ManagerState) (filePath : String) : Option Tree :=
  lookupKey s.trees filePath

/-- `isParsed` (`manager.ts:103-105`). -/
def isParsed (s : ManagerState) (filePath : String) : Bool :=
  (lookupKey s.trees filePath).isSome

/-- One entry of a `search` result. -/
structure SearchResult where
  name : String
  text : String
  startPosition : Point
  endPosition : Point
deriving DecidableEq, Repr

def captureToResult (c : Capture) : SearchResult :=
  ⟨c.name, c.node.text, c.node.startPosition, c.node.endPosition⟩

/-- `search` (`manager.ts:113-129`): compile the query against the tree's own
language, run the matcher on the root node, and map each capture — in the
matcher's order — to a result entry. -/
def search (s : ManagerState) (filePath queryString : String) :
    Except TsError (List SearchResult) × ManagerState :=
  match getTree s filePath with
  | none => (.error (.fileNotParsed filePath), s)
  | some tree =>
      match tree.language.compileQuery queryString with
      | none => (.error (.invalidQuery queryString), s)
      | some query => (.ok ((query tree.rootNode).map captureToResult), s)

/-- One entry of a `listElements` result. -/
structure ElementInfo where
  name : String
  type : String
  text : String
  startPosition : Point
  endPosition : Point
deriving DecidableEq, Repr

def nodeToElement (n : TSNode) : ElementInfo :=
  { name := match childForFieldName n "name" with
      | some nameNode => nameNode.text
      | none => "(anonymous)"
    type := n.type
    text := n.text
    startPosition := n.startPosition
    endPosition := n.endPosition }

/-- `listElements` (`manager.ts:137-155`): every descendant of the given
kind, each mapped to its name (text of the "name"-field child, or
"(anonymous)"), kind, text and span. -/
def listElements (s : ManagerState) (filePath nodeType : String) :
    Except TsError (List ElementInfo) × ManagerState :=
  match getTree s filePath with
  | none => (.error (.fileNotParsed filePath), s)
  | some tree => (.ok ((descendantsOfType tree.rootNode nodeType).map nodeToElement), s)

/-- Lexicographic order on positions. -/
def pointLe (p q : Point) : Bool :=
  p.row < q.row || (p.row == q.row && p.column ≤ q.column)

def pointLt (p q : Point) : Bool :=
  p.row < q.row || (p.row == q.row && p.column < q.column)

/-- Whether a node's span contains a position. -/
def containsPos (n : TSNode) (p : Point) : Bool :=
  pointLe n.startPosition p && pointLt p n.endPosition

-- The engine's `descendantForPosition` walk, recorded as the root-to-leaf
-- path: at each node, descend into the first child whose span contains the
-- position; the deepest containing node is the last element.
mutual

def pathToPosition (n : TSNode) (p : Point) : List TSNode :=
  match n with
  | .node ty nm f t s e cs =>
      match childPath cs p with
      | some path => .node ty nm f t s e cs :: path
      | none => [.node ty nm f t s e cs]

def childPath : List TSNode → Point → Option (List TSNode)
  | [], _ => none
  | c :: cs, p => if containsPos c p then some (pathToPosition c p) else childPath cs p

end

/-- The fixed block-kind set of `getContextualSnippet` (`manager.ts:175-180`). -/
def blockTypes : List String :=
  ["function_declaration", "method_definition", "class_declaration", "arrow_function"]

/-- The `while (node.parent && !blockTypes.has(node.type))` walk: starting at
the located node (first argument) with its ancestors listed nearest-first,
stop at the first block-kind node, or at the root when no parent is left. -/
def walkUp (n : TSNode) (ancestors : List TSNode) : TSNode :=
  match ancestors with
  | [] => n
  | a :: rest => if blockTypes.contains n.type then n else walkUp a rest

/-- `getContextualSnippet` (`manager.ts:163-187`): locate the deepest node at
the position, walk the parent chain to the first block-kind node (or the
root), and return that node's verbatim text. -/
def getContextualSnippet (s : ManagerState) (filePath : String) (position : Point) :
    Except TsError (Option String) × ManagerState :=
  match getTree s filePath with
  | none => (.error (.fileNotParsed filePath), s)
  | some tree =>
      match (pathToPosition tree.rootNode position).reverse with
      | [] => (.ok none, s)
      | n :: rest => (.ok (some (walkUp n rest).text), s)

/-- The result record of `getSyntaxTreeAnalytics`. -/
structure Analytics where
  originalTokenCount : Nat
  cstTokenCount : Nat
  astTokenCount : Nat
  cst : Json
  ast : Option Json

/-- `getSyntaxTreeAnalytics` (`manager.ts:240-266`): token-count the original
content, the stringified full CST and the stringified thin AST, and return
them with both serializations.  The tokenizer (`tiktoken`'s
`encoding.encode(...).length`) is an external collaborator, passed as the
`encode` function. -/
def getSyntaxTreeAnalytics (encode : String → Nat) (s : ManagerState)
    (filePath fileContent : String) : Except TsError Analytics × ManagerState :=
  match getTree s filePath with
  | none => (.error (.fileNotParsed filePath), s)
  | some tree =>
      let cst := serializeCstNode tree.rootNode
      let ast := buildAstNode tree.rootNode
      let astString := match ast with
        | some a => (astToJson a).stringify
        | none => "null"
      (.ok { originalTokenCount := encode fileContent
             cstTokenCount := encode cst.stringify
             astTokenCount := encode astString
             cst := cst
             ast := ast.map astToJson }, s)

/-- The extension→language table of `middleware.ts:46-54`. -/
def languageMap : List (String × String) :=
  [(".ts", "typescript"), (".tsx", "typescript"),
   (".js", "javascript"), (".jsx", "javascript"),
   (".py", "python"), (".go", "go"), (".java", "java")]

/-- The last path component (the characters after the last '/'). -/
def lastComponent (cs : List Char) : List Char :=
  cs.foldl (fun acc c => if c = '/' then [] else acc ++ [c]) []

/-- The suffix starting at the last '.' of the list, when one exists. -/
def lastDotSuffix : List Char → Option (List Char)
  | [] => none
  | c :: rest =>
      match lastDotSuffix rest with
      | some e => some e
      | none => if c = '.' then some (c :: rest) else none

/-- `path.extname`: the substring of the basename from its last dot — a dot
at position 0 (a dotfile) does not count — or "" when there is none. -/
def extname (p : String) : String :=
  match lastComponent p.data with
  | [] => ""
  | _ :: rest =>
      match lastDotSuffix rest with
      | some e => String.mk e
      | none => ""

/-- `ensureFileIsParsed` (`middleware.ts:64-97`): resolve the request path; a
cache hit returns at once; an extension absent from the table is logged and
*swallowed* (early return, no parse attempt); otherwise the file is read and
parsed, and any read or parse failure is caught, logged and swallowed — the
middleware itself never throws. -/
def ensureFileIsParsed (env : Env) (s : ManagerState) (requestPath : Option String) :
    Except TsError Unit × ManagerState × List Effect :=
  match requestPath with
  | none => (.ok (), s, [])
  | some relativePath =>
      if relativePath = "" then (.ok (), s, [])
      else
        let filePath := env.resolve relativePath
        if isParsed s filePath then (.ok (), s, [])
        else
          match lookupKey languageMap (extname filePath) with
          | none => (.ok (), s, [])
          | some language =>
              match env.readFile filePath with
              | none => (.ok (), s, [.fileRead filePath])
              | some content =>
                  match parseFile s language filePath content with
                  | (_, s', effects) => (.ok (), s', .fileRead filePath :: effects)

/-! Concrete test data: the CST that tree-sitter produces (in shape) for the
source `"function f() \x7b\n  return 1;\n\x7d"`, a sample grammar built on
it, and manager states around them. -/

def sampleSource : String := "function f() \x7b\n  return 1;\n\x7d"

def kwFunction : TSNode := .node "function" false none "function" ⟨0, 0⟩ ⟨0, 8⟩ []

def identF : TSNode := .node "identifier" true (some "name") "f" ⟨0, 9⟩ ⟨0, 10⟩ []

def paramsF : TSNode :=
  .node "formal_parameters" true (some "parameters") "()" ⟨0, 10⟩ ⟨0, 12⟩ []

def kwReturn : TSNode := .node "return" false none "return" ⟨1, 2⟩ ⟨1, 8⟩ []

def numOne : TSNode := .node "number" true none "1" ⟨1, 9⟩ ⟨1, 10⟩ []

def semiTok : TSNode := .node ";" false none ";" ⟨1, 10⟩ ⟨1, 11⟩ []

def returnStmt : TSNode :=
  .node "return_statement" true none "return 1;" ⟨1, 2⟩ ⟨1, 11⟩ [kwReturn, numOne, semiTok]

def lbraceTok : TSNode := .node "\x7b" false none "\x7b" ⟨0, 13⟩ ⟨0, 14⟩ []

def rbraceTok : TSNode := .node "\x7d" false none "\x7d" ⟨2, 0⟩ ⟨2, 1⟩ []

def bodyBlock : TSNode :=
  .node "statement_block" true (some "body") "\x7b\n  return 1;\n\x7d" ⟨0, 13⟩ ⟨2, 1⟩
    [lbraceTok, returnStmt, rbraceTok]

def funcDecl : TSNode :=
  .node "function_declaration" true none sampleSource ⟨0, 0⟩ ⟨2, 1⟩
    [kwFunction, identF, paramsF, bodyBlock]

def sampleProgram : TSNode := .node "program" true none sampleSource ⟨0, 0⟩ ⟨2, 1⟩ [funcDecl]

/-- A program whose first child is a comment, for the thin-AST reduction. -/
def commentNode : TSNode := .node "comment" true none "// note" ⟨0, 0⟩ ⟨0, 7⟩ []

def commentedProgram : TSNode :=
  .node "program" true none "// note\nf" ⟨0, 0⟩ ⟨1, 1⟩ [commentNode, identF]

/-- A sample grammar: parsing any content yields `sampleProgram`; any query
except the literal "(bad" compiles, capturing the root once as "cap". -/
def tsGrammar : Grammar :=
  { parseFn := fun _ => some sampleProgram
    compileQuery := fun q =>
      if q = "(bad" then none else some (fun root => [⟨"cap", root⟩]) }

def sampleTree : Tree := ⟨sampleProgram, tsGrammar⟩

def sampleEnv : Env :=
  { resolve := fun p => p
    readFile := fun p => if p = "/proj/ok.ts" then some sampleSource else none
    loadGrammar := fun l => if l = "typescript" then some tsGrammar else none }

/-- A manager state with the parser initialized and typescript loaded. -/
def sReady : ManagerState := ⟨true, [("typescript", tsGrammar)], []⟩

/-- `sReady` after `/proj/ok.ts` has been parsed. -/
def sParsed : ManagerState :=
  ⟨true, [("typescript", tsGrammar)], [("/proj/ok.ts", sampleTree)]⟩

/-! Helper lemmas. -/

namespace TSNode

@[simp] theorem type_node (ty nm f t s e cs) :
    (TSNode.node ty nm f t s e cs).type = ty := rfl

@[simp] theorem isNamed_node (ty nm f t s e cs) :
    (TSNode.node ty nm f t s e cs).isNamed = nm := rfl

@[simp] theorem fieldName_node (ty nm f t s e cs) :
    (TSNode.node ty nm f t s e cs).fieldName = f := rfl

@[simp] theorem text_node (ty nm f t s e cs) :
    (TSNode.node ty nm f t s e cs).text = t := rfl

@[simp] theorem startPosition_node (ty nm f t s e cs) :
    (TSNode.node ty nm f t s e cs).startPosition = s := rfl

@[simp] theorem endPosition_node (ty nm f t s e cs) :
    (TSNode.node ty nm f t s e cs).endPosition = e := rfl

@[simp] theorem children_node (ty nm f t s e cs) :
    (TSNode.node ty nm f t s e cs).children = cs := rfl

end TSNode

namespace AstNode

@[simp] theorem type_mk (ty nm s e cs) : (AstNode.mk ty nm s e cs).type = ty := rfl

@[simp] theorem name_mk (ty nm s e cs) : (AstNode.mk ty nm s e cs).name = nm := rfl

@[simp] theorem startPosition_mk (ty nm s e cs) :
    (AstNode.mk ty nm s e cs).startPosition = s := rfl

@[simp] theorem endPosition_mk (ty nm s e cs) :
    (AstNode.mk ty nm s e cs).endPosition = e := rfl

@[simp] theorem children_mk (ty nm s e cs) : (AstNode.mk ty nm s e cs).children = cs := rfl

end AstNode

theorem lookupKey_setKey_self {α : Type} (m : List (String × α)) (k : String) (v : α) :
    lookupKey (setKey m k v) k = some v := by
  induction m with
  | nil => simp [setKey, lookupKey]
  | cons hd tl ih =>
      obtain ⟨k', w⟩ := hd
      by_cases h : k' = k <;> simp [setKey, lookupKey, h, ih]

theorem lookupKey_setKey_ne {α : Type} (m : List (String × α)) (k k' : String) (v : α)
    (h : k' ≠ k) : lookupKey (setKey m k v) k' = lookupKey m k' := by
  have hne : ¬ k = k' := fun hh => h hh.symm
  induction m with
  | nil =>
      simp only [setKey, lookupKey]
      rw [if_neg hne]
  | cons hd tl ih =>
      obtain ⟨k₀, w⟩ := hd
      by_cases h0 : k₀ = k
      · subst h0
        simp only [setKey, if_pos rfl, lookupKey]
        rw [if_neg hne, if_neg hne]
      · simp only [setKey, if_neg h0, lookupKey, ih]

theorem buildAstList_eq_filterMap (cs : List TSNode) :
    buildAstList cs = cs.filterMap buildAstNode := by
  induction cs with
  | nil => rfl
  | cons c rest ih =>
      simp only [buildAstList, List.filterMap_cons]
      cases buildAstNode c <;> simp [ih]

theorem childPath_eq_find? (cs : List TSNode) (p : Point) :
    childPath cs p = (cs.find? (fun c => containsPos c p)).map (fun c => pathToPosition c p) := by
  induction cs with
  | nil => rfl
  | cons c rest ih =>
      rw [childPath, List.find?]
      by_cases hc : containsPos c p = true
      · simp [hc]
      · simp only [Bool.not_eq_true] at hc
        simp [hc, ih]

theorem cons_getLast?_eq {α : Type} (n : α) (anc : List α) :
    (n :: anc).getLast? = some (anc.getLastD n) := by
  induction anc generalizing n with
  | nil => rfl
  | cons a l ih => rw [List.getLast?_cons_cons, ih, List.getLastD_cons]

theorem pathToPosition_cons (n : TSNode) (p : Point) :
    ∃ rest, pathToPosition n p = n :: rest := by
  cases n with
  | node ty nm f t s e cs =>
      cases hc : childPath cs p with
      | some path => exact ⟨path, by rw [pathToPosition, hc]⟩
      | none => exact ⟨[], by rw [pathToPosition, hc]⟩

theorem find?_cons_eq {α : Type} (p : α → Bool) (a : α) (l : List α) :
    (a :: l).find? p = if p a then some a else l.find? p := by
  by_cases h : p a = true
  · simp [h]
  · simp [h]

theorem walkUp_find?_some (n : TSNode) (ancestors : List TSNode) (b : TSNode)
    (h : (n :: ancestors).find? (fun m => blockTypes.contains m.type) = some b) :
    walkUp n ancestors = b := by
  induction ancestors generalizing n with
  | nil =>
      rw [find?_cons_eq] at h
      by_cases hb : blockTypes.contains n.type = true
      · rw [if_pos hb, Option.some.injEq] at h
        exact h
      · rw [if_neg (by simpa using hb)] at h
        simp [List.find?] at h
  | cons a rest ih =>
      rw [find?_cons_eq] at h
      by_cases hb : blockTypes.contains n.type = true
      · rw [if_pos hb, Option.some.injEq] at h
        calc walkUp n (a :: rest)
            = n := by
              show (if blockTypes.contains n.type then n else walkUp a rest) = n
              rw [if_pos hb]
          _ = b := h
      · rw [if_neg (by simpa using hb)] at h
        show (if blockTypes.contains n.type then n else walkUp a rest) = b
        rw [if_neg (by simpa using hb)]
        exact ih a h

theorem walkUp_find?_none (n : TSNode) (ancestors : List TSNode)
    (h : ∀ m ∈ n :: ancestors, ¬ blockTypes.contains m.type = true) :
    walkUp n ancestors = ancestors.getLastD n := by
  induction ancestors generalizing n with
  | nil => rfl
  | cons a rest ih =>
      rw [walkUp, if_neg (h n (by simp)),
        ih a (fun m hm => h m (List.mem_cons_of_mem n hm))]
      rw [List.getLastD_cons]

mutual

theorem buildAst_noComment (n : TSNode) (a : AstNode) (h : buildAstNode n = some a) :
    noCommentNode a = true :=
  match n, h with
  | .node ty nm f t s e cs, h => by
      rw [buildAstNode] at h
      by_cases hd : ty = "comment" ∨ nm = false
      · rw [if_pos hd] at h
        exact absurd h (by simp)
      · rw [if_neg hd] at h
        injection h with h
        subst h
        push_neg at hd
        simp only [noCommentNode, Bool.and_eq_true, bne_iff_ne, ne_eq]
        exact ⟨hd.1, buildAstList_noComment cs⟩

theorem buildAstList_noComment (cs : List TSNode) :
    noCommentList (buildAstList cs) = true :=
  match cs with
  | [] => rfl
  | c :: rest => by
      cases hc : buildAstNode c with
      | none =>
          simp only [buildAstList, hc]
          exact buildAstList_noComment rest
      | some a =>
          simp only [buildAstList, hc, noCommentList, Bool.and_eq_true]
          exact ⟨buildAst_noComment c a hc, buildAstList_noComment rest⟩

end

theorem astToJson_hasKey_children (a : AstNode) :
    Json.hasKey (astToJson a) "children" = !a.children.isEmpty := by
  cases a with
  | mk ty nm s e cs => cases nm <;> cases cs <;> simp [astToJson, Json.hasKey]

/-! Claim theorems. -/

/-- C10: the four query operations — `search`, `listElements`,
`getContextualSnippet` and `getSyntaxTreeAnalytics` — are read-only on the
manager's explicit state: whether they return a result or throw, the state
(parser field, languages map, trees map) after the call is exactly the state
before it. -/
theorem queryOps_readonly (encode : String → Nat) (s : ManagerState)
    (filePath queryString nodeType content : String) (pos : Point) :
    (search s filePath queryString).2 = s ∧
    (listElements s filePath nodeType).2 = s ∧
    (getContextualSnippet s filePath pos).2 = s ∧
    (getSyntaxTreeAnalytics encode s filePath content).2 = s := by
  refine ⟨?_, ?_, ?_, ?_⟩
  · cases hg : getTree s filePath with
    | none => simp [search, hg]
    | some tree => cases hq : tree.language.compileQuery queryString <;> simp [search, hg, hq]
  · cases hg : getTree s filePath <;> simp [listElements, hg]
  · cases hg : getTree s filePath with
    | none => simp [getContextualSnippet, hg]
    | some tree =>
        cases hp : (pathToPosition tree.rootNode pos).reverse <;>
          simp [getContextualSnippet, hg, hp]
  · cases hg : getTree s filePath <;> simp [getSyntaxTreeAnalytics, hg]

/-- C8: a `loadLanguage` call for a language whose grammar is already cached
is a no-op: it returns successfully, performs no grammar-artifact load (empty
effect trace, and the outcome does not depend on the loader at all), and
leaves the languages map exactly as it was. -/
theorem loadLanguage_idempotent (env env' : Env) (s : ManagerState) (languageName : String)
    (h : (lookupKey s.languages languageName).isSome = true) :
    loadLanguage env s languageName = (.ok (), s, []) ∧
    loadLanguage env s languageName = loadLanguage env' s languageName := by
  constructor
  · rw [loadLanguage, if_pos h]
  · rw [loadLanguage, if_pos h, loadLanguage, if_pos h]

theorem loadLanguage_idempotent_witness :
    loadLanguage sampleEnv sReady "typescript" = (.ok (), sReady, []) :=
  (loadLanguage_idempotent sampleEnv sampleEnv sReady "typescript" rfl).1

/-- C4: `parseFile` mutates the tree cache only on success.  When it throws
(parser uninitialized, language not loaded, or the parse primitive returning
no tree) the whole state — in particular the tree cache — is unchanged; on
success the only mutation is that the entry under `filePath` now holds the
newly parsed tree, every other entry and the rest of the state being
untouched. -/
theorem parseFile_atomic (s : ManagerState) (languageName filePath content : String) :
    (∀ e, (parseFile s languageName filePath content).1 = .error e →
        (parseFile s languageName filePath content).2.1 = s) ∧
    ((parseFile s languageName filePath content).1 = .ok () →
      ∃ g root, lookupKey s.languages languageName = some g ∧
        g.parseFn content = some root ∧
        (parseFile s languageName filePath content).2.1.parser = s.parser ∧
        (parseFile s languageName filePath content).2.1.languages = s.languages ∧
        (parseFile s languageName filePath content).2.1.trees
          = setKey s.trees filePath ⟨root, g⟩ ∧
        getTree ((parseFile s languageName filePath content).2.1) filePath
          = some ⟨root, g⟩ ∧
        (∀ k, k ≠ filePath →
          lookupKey (parseFile s languageName filePath content).2.1.trees k
            = lookupKey s.trees k)) := by
  by_cases hp : s.parser = false
  · constructor
    · intro e _
      simp [parseFile, hp]
    · intro hok
      simp [parseFile, hp] at hok
  · constructor
    · intro e he
      cases hg : lookupKey s.languages languageName with
      | none => simp [parseFile, hp, hg]
      | some g =>
          cases hr : g.parseFn content with
          | none => simp [parseFile, hp, hg, hr]
          | some root =>
              simp [parseFile, hp, hg, hr] at he
    · intro hok
      cases hg : lookupKey s.languages languageName with
      | none => simp [parseFile, hp, hg] at hok
      | some g =>
          cases hr : g.parseFn content with
          | none => simp [parseFile, hp, hg, hr] at hok
          | some root =>
              refine ⟨g, root, rfl, hr, ?_, ?_, ?_, ?_, ?_⟩ <;>
                simp [parseFile, hp, hg, hr, getTree, lookupKey_setKey_self,
                  lookupKey_setKey_ne]
              intro k hk
              exact lookupKey_setKey_ne s.trees filePath k _ hk

theorem parseFile_atomic_witness :
    (parseFile ⟨false, [], []⟩ "typescript" "/proj/ok.ts" "const x = 1;").2.1
      = ⟨false, [], []⟩ :=
  (parseFile_atomic ⟨false, [], []⟩ "typescript" "/proj/ok.ts" "const x = 1;").1
    .parserNotInitialized rfl

/-- C2: for a file identifier already present in the tree cache, resolution
through `ensureFileIsParsed` performs no file read and no parse (empty effect
trace), leaves the state — in particular the cache — unmodified, and the
tree subsequently served for that identifier is the cached one, so resolving
twice yields byte-identical serialized CSTs. -/
theorem cacheHit_noop (env : Env) (s : ManagerState) (relativePath : String) (t : Tree)
    (h : getTree s (env.resolve relativePath) = some t) :
    ensureFileIsParsed env s (some relativePath) = (.ok (), s, []) ∧
    (∀ t₂, getTree ((ensureFileIsParsed env s (some relativePath)).2.1)
          (env.resolve relativePath) = some t₂ →
        t₂ = t ∧ Json.stringify (serializeCstNode t₂.rootNode)
          = Json.stringify (serializeCstNode t.rootNode)) := by
  have hip : isParsed s (env.resolve relativePath) = true := by
    rw [isParsed]
    rw [getTree] at h
    rw [h]
    rfl
  have hfirst : ensureFileIsParsed env s (some relativePath) = (.ok (), s, []) := by
    by_cases hre : relativePath = ""
    · simp [ensureFileIsParsed, hre]
    · simp [ensureFileIsParsed, hre, hip]
  refine ⟨hfirst, ?_⟩
  intro t₂ h₂
  rw [hfirst] at h₂
  rw [h] at h₂
  injection h₂ with h₂
  subst h₂
  exact ⟨rfl, rfl⟩

theorem cacheHit_noop_witness :
    ensureFileIsParsed sampleEnv sParsed (some "/proj/ok.ts") = (.ok (), sParsed, []) :=
  (cacheHit_noop sampleEnv sParsed "/proj/ok.ts" sampleTree rfl).1

/-- C7: `search` returns exactly one result entry per capture, in exactly the
order the external matcher yields them — the result list is the capture list
mapped entrywise, with no re-sorting, deduplication or merging — and a query
with zero captures returns the empty sequence rather than an error. -/
theorem search_capture_order (s : ManagerState) (filePath queryString : String)
    (tree : Tree) (query : TSNode → List Capture)
    (h : getTree s filePath = some tree)
    (hq : tree.language.compileQuery queryString = some query) :
    (search s filePath queryString).1 = .ok ((query tree.rootNode).map captureToResult) ∧
    (∀ res, (search s filePath queryString).1 = .ok res →
        res.length = (query tree.rootNode).length ∧
        ∀ i : Nat, res[i]? = ((query tree.rootNode)[i]?).map captureToResult) ∧
    (query tree.rootNode = [] → (search s filePath queryString).1 = .ok []) := by
  have hmain : (search s filePath queryString).1
      = .ok ((query tree.rootNode).map captureToResult) := by
    simp [search, h, hq]
  refine ⟨hmain, ?_, ?_⟩
  · intro res hres
    rw [hmain] at hres
    injection hres with hres
    subst hres
    exact ⟨List.length_map _ _, fun i => List.getElem?_map _ _ i⟩
  · intro hz
    rw [hmain, hz]
    rfl

theorem search_capture_order_witness :
    (search sParsed "/proj/ok.ts" "(function_declaration) @cap").1
      = .ok [⟨"cap", sampleSource, ⟨0, 0⟩, ⟨2, 1⟩⟩] :=
  (search_capture_order sParsed "/proj/ok.ts" "(function_declaration) @cap"
    sampleTree (fun root => [⟨"cap", root⟩]) rfl rfl).1

/-- C6: `listElements` returns one entry per node whose kind equals the
argument, found anywhere in the tree by a full pre-order traversal in
document order; each entry's name is the text of the node's "name"-field
child, or the sentinel "(anonymous)" when that field is absent; a kind that
matches no node yields the empty sequence, not an error. -/
theorem listElements_traversal (s : ManagerState) (filePath nodeType : String) (tree : Tree)
    (h : getTree s filePath = some tree) :
    (listElements s filePath nodeType).1 =
      .ok (((preorder tree.rootNode).filter (fun n => n.type == nodeType)).map nodeToElement) ∧
    (∀ n, n ∈ preorder tree.rootNode → n.type = nodeType →
        ∀ res, (listElements s filePath nodeType).1 = .ok res → nodeToElement n ∈ res) ∧
    (∀ n, (childForFieldName n "name" = none → (nodeToElement n).name = "(anonymous)") ∧
        (∀ c, childForFieldName n "name" = some c → (nodeToElement n).name = c.text)) ∧
    ((∀ n ∈ preorder tree.rootNode, n.type ≠ nodeType) →
        (listElements s filePath nodeType).1 = .ok []) := by
  have hmain : (listElements s filePath nodeType).1 =
      .ok (((preorder tree.rootNode).filter (fun n => n.type == nodeType)).map nodeToElement) := by
    simp [listElements, h, descendantsOfType]
  refine ⟨hmain, ?_, ?_, ?_⟩
  · intro n hmem hty res hres
    rw [hmain] at hres
    injection hres with hres
    subst hres
    exact List.mem_map_of_mem _ (List.mem_filter.mpr ⟨hmem, by simp [hty]⟩)
  · intro n
    constructor
    · intro hnone
      simp [nodeToElement, hnone]
    · intro c hsome
      simp [nodeToElement, hsome]
  · intro hnone
    rw [hmain]
    have : (preorder tree.rootNode).filter (fun n => n.type == nodeType) = [] := by
      rw [List.filter_eq_nil_iff]
      intro n hn
      simpa using hnone n hn
    rw [this]
    rfl

theorem listElements_traversal_witness :
    (listElements sParsed "/proj/ok.ts" "function_declaration").1
      = .ok [⟨"f", "function_declaration", sampleSource, ⟨0, 0⟩, ⟨2, 1⟩⟩] := by
  have h := (listElements_traversal sParsed "/proj/ok.ts" "function_declaration"
    sampleTree rfl).1
  rw [h]
  rfl

/-- C9: re-running the analytics on the same `(filePath, content)` pair after
re-parsing identical content with the same grammar — starting from two
arbitrary manager states, e.g. with the cache cleared in between — produces
identical results: the same token counts and byte-for-byte identical `cst`
and `ast` serializations. -/
theorem analyze_deterministic (encode : String → Nat) (s₁ s₂ : ManagerState)
    (languageName filePath content : String) (g : Grammar) (root : TSNode)
    (h₁ : s₁.parser = true) (h₂ : s₂.parser = true)
    (hg₁ : lookupKey s₁.languages languageName = some g)
    (hg₂ : lookupKey s₂.languages languageName = some g)
    (hroot : g.parseFn content = some root) :
    (getSyntaxTreeAnalytics encode (parseFile s₁ languageName filePath content).2.1
        filePath content).1
      = (getSyntaxTreeAnalytics encode (parseFile s₂ languageName filePath content).2.1
        filePath content).1 ∧
    (∀ r₁ r₂,
      (getSyntaxTreeAnalytics encode (parseFile s₁ languageName filePath content).2.1
        filePath content).1 = .ok r₁ →
      (getSyntaxTreeAnalytics encode (parseFile s₂ languageName filePath content).2.1
        filePath content).1 = .ok r₂ →
      r₁.cst.stringify = r₂.cst.stringify ∧
      r₁.ast.map Json.stringify = r₂.ast.map Json.stringify) := by
  have e₁ : getTree (parseFile s₁ languageName filePath content).2.1 filePath
      = some ⟨root, g⟩ := by
    simp [parseFile, h₁, hg₁, hroot, getTree, lookupKey_setKey_self]
  have e₂ : getTree (parseFile s₂ languageName filePath content).2.1 filePath
      = some ⟨root, g⟩ := by
    simp [parseFile, h₂, hg₂, hroot, getTree, lookupKey_setKey_self]
  have hmain : (getSyntaxTreeAnalytics encode (parseFile s₁ languageName filePath content).2.1
        filePath content).1
      = (getSyntaxTreeAnalytics encode (parseFile s₂ languageName filePath content).2.1
        filePath content).1 := by
    rw [getSyntaxTreeAnalytics, getSyntaxTreeAnalytics, e₁, e₂]
  refine ⟨hmain, ?_⟩
  intro r₁ r₂ hr₁ hr₂
  rw [hmain, hr₂] at hr₁
  injection hr₁ with hr₁
  subst hr₁
  exact ⟨rfl, rfl⟩

theorem analyze_deterministic_witness :
    (getSyntaxTreeAnalytics String.length
        (parseFile sReady "typescript" "/proj/ok.ts" sampleSource).2.1
        "/proj/ok.ts" sampleSource).1
      = (getSyntaxTreeAnalytics String.length
        (parseFile sParsed "typescript" "/proj/ok.ts" sampleSource).2.1
        "/proj/ok.ts" sampleSource).1 :=
  (analyze_deterministic String.length sReady sParsed "typescript" "/proj/ok.ts"
    sampleSource tsGrammar sampleProgram rfl rfl rfl rfl rfl).1

/-- C1 counterexample: at concrete inputs, a file whose extension is absent
from the extension table (`/proj/data.xyz`, no hint) and a mapped file whose
read fails (`/proj/missing.ts`, `readFile` yields nothing) both make
`ensureFileIsParsed` return *successfully* with the state unchanged — no
`UnsupportedExtension` or `SourceNotFound` failure reaches the request
boundary, contradicting the claim that these collaborator failures propagate
unchanged to the caller. -/
theorem ensure_swallows_counterexample :
    (ensureFileIsParsed sampleEnv sReady (some "/proj/data.xyz")).1 = .ok () ∧
    (ensureFileIsParsed sampleEnv sReady (some "/proj/data.xyz")).2.1 = sReady ∧
    (ensureFileIsParsed sampleEnv sReady (some "/proj/missing.ts")).1 = .ok () ∧
    (ensureFileIsParsed sampleEnv sReady (some "/proj/missing.ts")).2.1 = sReady :=
  ⟨rfl, rfl, rfl, rfl⟩

/-- C1 as amended: the middleware *swallows* both failures.  When no language
can be inferred it returns normally without reading or parsing anything, and
when the read fails it returns normally having only attempted the read; in
both cases the cache is untouched, and it is the subsequent tool operation
that then fails, with a file-not-parsed error rather than
`UnsupportedExtension`/`SourceNotFound`. -/
theorem ensure_swallows (env : Env) (s : ManagerState) (relativePath : String)
    (hne : relativePath ≠ "")
    (hnp : isParsed s (env.resolve relativePath) = false) :
    (lookupKey languageMap (extname (env.resolve relativePath)) = none →
        ensureFileIsParsed env s (some relativePath) = (.ok (), s, [])) ∧
    (∀ language, lookupKey languageMap (extname (env.resolve relativePath)) = some language →
        env.readFile (env.resolve relativePath) = none →
        ensureFileIsParsed env s (some relativePath)
          = (.ok (), s, [.fileRead (env.resolve relativePath)])) ∧
    (∀ queryString, getTree s (env.resolve relativePath) = none →
        (search s (env.resolve relativePath) queryString).1
          = .error (.fileNotParsed (env.resolve relativePath))) := by
  refine ⟨?_, ?_, ?_⟩
  · intro hext
    simp [ensureFileIsParsed, hne, hnp, hext]
  · intro language hext hread
    simp [ensureFileIsParsed, hne, hnp, hext, hread]
  · intro queryString hg
    simp [search, hg]

theorem ensure_swallows_witness :
    ensureFileIsParsed sampleEnv sReady (some "/proj/data.xyz") = (.ok (), sReady, []) :=
  (ensure_swallows sampleEnv sReady "/proj/data.xyz" (by decide) rfl).1 rfl

/-- C5: when a deepest node containing the position is located,
`getContextualSnippet` walks the parent chain starting at (and including)
that node — here: the reversed root-to-node path — and returns the verbatim
text of the first node whose kind is in the fixed block-kind set
`blockTypes`; if the root is reached without finding a block kind, it
returns the root's full text instead of failing. -/
theorem snippet_block_walk (s : ManagerState) (filePath : String) (pos : Point)
    (tree : Tree) (h : getTree s filePath = some tree) :
    (∀ b, (pathToPosition tree.rootNode pos).reverse.find?
          (fun m => blockTypes.contains m.type) = some b →
        (getContextualSnippet s filePath pos).1 = .ok (some b.text)) ∧
    ((pathToPosition tree.rootNode pos).reverse.find?
          (fun m => blockTypes.contains m.type) = none →
        (getContextualSnippet s filePath pos).1 = .ok (some tree.rootNode.text)) := by
  obtain ⟨rest, hpath⟩ := pathToPosition_cons tree.rootNode pos
  cases hc : (pathToPosition tree.rootNode pos).reverse with
  | nil =>
      rw [hpath] at hc
      exact absurd hc (by simp)
  | cons n anc =>
      have hres : (getContextualSnippet s filePath pos).1
          = .ok (some (walkUp n anc).text) := by
        simp [getContextualSnippet, h, hc]
      constructor
      · intro b hb
        rw [hres, walkUp_find?_some n anc b hb]
      · intro hnone
        rw [List.find?_eq_none] at hnone
        have hlast : (n :: anc).getLast? = some tree.rootNode := by
          rw [← hc, List.getLast?_reverse, hpath]
          rfl
        rw [cons_getLast?_eq, Option.some.injEq] at hlast
        rw [hres, walkUp_find?_none n anc hnone, hlast]

theorem snippet_block_walk_witness :
    (getContextualSnippet sParsed "/proj/ok.ts" ⟨1, 4⟩).1 = .ok (some sampleSource) :=
  (snippet_block_walk sParsed "/proj/ok.ts" ⟨1, 4⟩ sampleTree rfl).1 funcDecl rfl

/-- C3: the thin AST produced by the analytics is the recursive reduction of
the CST in which a node is dropped, with its whole subtree, exactly when its
kind is "comment" or it is unnamed; a kept node carries its kind, the text
of its "name"-field child when present, its start and end positions and its
reduced kept children; the serialized form carries a `children` key exactly
when that list is non-empty; and consequently the thin AST contains no
comment node. -/
theorem thinAst_reduction :
    (∀ (encode : String → Nat) (s : ManagerState) (filePath content : String) (tree : Tree),
        getTree s filePath = some tree →
        ∃ r, (getSyntaxTreeAnalytics encode s filePath content).1 = .ok r ∧
          r.ast = (buildAstNode tree.rootNode).map astToJson) ∧
    (∀ n : TSNode, buildAstNode n = none ↔ (n.type = "comment" ∨ n.isNamed = false)) ∧
    (∀ (n : TSNode) (a : AstNode), buildAstNode n = some a →
        a.type = n.type ∧
        a.name = (childForFieldName n "name").map TSNode.text ∧
        a.startPosition = n.startPosition ∧
        a.endPosition = n.endPosition ∧
        a.children = n.children.filterMap buildAstNode ∧
        (Json.hasKey (astToJson a) "children" = true ↔ a.children ≠ []) ∧
        noCommentNode a = true) := by
  refine ⟨?_, ?_, ?_⟩
  · intro encode s filePath content tree h
    simp only [getSyntaxTreeAnalytics, h]
    exact ⟨_, rfl, rfl⟩
  · intro n
    cases n with
    | node ty nm f t s e cs =>
        rw [buildAstNode]
        by_cases hd : ty = "comment" ∨ nm = false
        · rw [if_pos hd]
          simp only [TSNode.type_node, TSNode.isNamed_node]
          exact iff_of_true (by trivial) hd
        · rw [if_neg hd]
          simp only [TSNode.type_node, TSNode.isNamed_node]
          exact iff_of_false (by simp) hd
  · intro n a h
    cases n with
    | node ty nm f t s e cs =>
        rw [buildAstNode] at h
        by_cases hd : ty = "comment" ∨ nm = false
        · rw [if_pos hd] at h
          exact absurd h (by simp)
        · rw [if_neg hd] at h
          rw [Option.some.injEq] at h
          subst h
          refine ⟨rfl, rfl, rfl, rfl, ?_, ?_, ?_⟩
          · exact buildAstList_eq_filterMap cs
          · rw [astToJson_hasKey_children]
            simp
          · exact buildAst_noComment (.node ty nm f t s e cs) _
              (by rw [buildAstNode, if_neg hd])

theorem thinAst_reduction_witness :
    buildAstNode commentNode = none ∧
    noCommentNode (.mk "program" none ⟨0, 0⟩ ⟨1, 1⟩
      [.mk "identifier" none ⟨0, 9⟩ ⟨0, 10⟩ []]) = true :=
  ⟨(thinAst_reduction.2.1 commentNode).mpr (Or.inl rfl),
   (thinAst_reduction.2.2 commentedProgram _ rfl).2.2.2.2.2.2⟩

end TreeSitterMCP
